import Mathlib

/- Formal model of scripts/generate_test_stl.py: a binary STL writer
   (write_stl_binary) and two mesh generators (generate_cube_stl,
   generate_pyramid_stl).

   Modelling conventions:
   - coordinates are exact rationals (the script computes in IEEE doubles;
     arithmetic is modelled exactly, with a single rounding to binary32 at
     serialization time);
   - the square root `(…) ** 0.5` in the normalization step is modelled by
     an explicit function parameter `s : ℚ → ℚ`, constrained by hypotheses
     (`s q * s q = q`, `0 ≤ s q`) where a theorem needs them;
   - bytes are natural numbers < 256, a file is a `List ℕ`;
   - `struct.pack` with format <f is modelled by an exact round-to-nearest-
     even conversion to the IEEE 754 binary32 bit pattern, serialized
     little-endian; format <I is the little-endian 4-byte encoding. -/

namespace StlGen

/-- A 3D point or vector: three rational coordinates (models the numeric
triples used by the script). -/
structure Vec3 where
  x : ℚ
  y : ℚ
  z : ℚ
deriving DecidableEq, Repr

/-- A triangle is an ordered triple of vertices (v1, v2, v3). -/
def Triangle : Type := Vec3 × Vec3 × Vec3

instance : DecidableEq Triangle := by
  unfold Triangle
  infer_instance

/-- The three vertices of a triangle, in input order. -/
def vertsOf (t : Triangle) : List Vec3 := [t.1, t.2.1, t.2.2]

/-- Cross product of the edge vectors (v2 − v1) and (v3 − v1), exactly as
computed in write_stl_binary (lines 22-31 of the script). -/
def cross (t : Triangle) : Vec3 :=
  let v1 := t.1
  let v2 := t.2.1
  let v3 := t.2.2
  let e1 : Vec3 := ⟨v2.x - v1.x, v2.y - v1.y, v2.z - v1.z⟩
  let e2 : Vec3 := ⟨v3.x - v1.x, v3.y - v1.y, v3.z - v1.z⟩
  ⟨e1.y * e2.z - e1.z * e2.y, e1.z * e2.x - e1.x * e2.z,
   e1.x * e2.y - e1.y * e2.x⟩

/-- The squared Euclidean length `sum(n*n for n in v)`. -/
def sumsq (v : Vec3) : ℚ := v.x * v.x + v.y * v.y + v.z * v.z

/-- The normal the script computes for a triangle (lines 33-38): `length`
is `sumsq ** 0.5`, modelled by the parameter `s` applied to the squared
length; if `length > 0` each cross-product component is divided by it,
otherwise the fallback normal (0, 0, 1) is used. -/
def normalOf (s : ℚ → ℚ) (t : Triangle) : Vec3 :=
  let n := cross t
  let length := s (sumsq n)
  if 0 < length then ⟨n.x / length, n.y / length, n.z / length⟩
  else ⟨0, 0, 1⟩

/-- Division that reports a division by zero instead of performing it
(rational division in Lean is total, so guardedness is made observable). -/
def divOpt (a b : ℚ) : Option ℚ := if b = 0 then none else some (a / b)

/-- The normal computation with every division routed through `divOpt`:
returns `none` exactly when the script would divide by zero. -/
def normalOfChecked (s : ℚ → ℚ) (t : Triangle) : Option Vec3 :=
  let n := cross t
  let length := s (sumsq n)
  if 0 < length then
    match divOpt n.x length, divOpt n.y length, divOpt n.z length with
    | some a, some b, some c => some ⟨a, b, c⟩
    | _, _, _ => none
  else some ⟨0, 0, 1⟩

/-- Round a rational to the nearest integer, ties to even (the rounding
IEEE 754 conversions use). -/
def rne (q : ℚ) : ℤ :=
  let n := ⌊q⌋
  let r := q - n
  if r < 1 / 2 then n
  else if 1 / 2 < r then n + 1
  else if n % 2 = 0 then n else n + 1

/-- Fuel-based floor of log₂ on naturals (any fuel ≥ n is enough). -/
def log2floorFuel : ℕ → ℕ → ℕ
  | 0, _ => 0
  | f + 1, n => if n < 2 then 0 else log2floorFuel f (n / 2) + 1

/-- Fuel-based search for the least k ≥ k₀ with 1 ≤ a * 2 ^ k. -/
def negExpFuel : ℕ → ℚ → ℕ → ℕ
  | 0, _, k => k
  | f + 1, a, k => if 1 ≤ a * 2 ^ k then k else negExpFuel f a (k + 1)

/-- Binary exponent of a positive rational: the e with 2^e ≤ a < 2^(e+1). -/
def qlog2 (a : ℚ) : ℤ :=
  if 1 ≤ a then
    let m := (⌊a⌋).toNat
    (log2floorFuel m m : ℤ)
  else
    -(negExpFuel a.den a 1 : ℤ)

/-- The IEEE 754 binary32 bit pattern of a rational, round-to-nearest-even
with subnormals and overflow to infinity: the value `struct.pack('<f', q)`
serializes. -/
def encF32 (q : ℚ) : ℕ :=
  if q = 0 then 0
  else
    let sign : ℕ := if q < 0 then 2 ^ 31 else 0
    let a : ℚ := |q|
    let e : ℤ := qlog2 a
    if e < -126 then
      sign + (rne (a * 2 ^ (149 : ℕ))).toNat
    else
      let m : ℤ := rne (a * (2 : ℚ) ^ (23 - e))
      let em : ℤ × ℤ := if m = 2 ^ 24 then (e + 1, 2 ^ 23) else (e, m)
      if 127 < em.1 then sign + 255 * 2 ^ 23
      else sign + (em.1 + 127).toNat * 2 ^ 23 + (em.2 - 2 ^ 23).toNat

/-- Little-endian 4-byte serialization of a 32-bit value, as produced by
`struct.pack` with format <I. -/
def u32le (n : ℕ) : List ℕ :=
  [n % 256, n / 256 % 256, n / 65536 % 256, n / 16777216 % 256]

/-- The 4 bytes `struct.pack('<f', q)` produces: the little-endian
binary32 pattern of q. -/
def f32le (q : ℚ) : List ℕ := u32le (encF32 q)

/-- The 12 bytes `struct.pack('<fff', v)` produces. -/
def packVec (v : Vec3) : List ℕ := f32le v.x ++ f32le v.y ++ f32le v.z

/-- The 50-byte record the script writes for one triangle: normal (12
bytes), the three vertices in input order (36 bytes), and the two
attribute bytes `b'\x00\x00'`. -/
def triRecord (s : ℚ → ℚ) (t : Triangle) : List ℕ :=
  packVec (normalOf s t) ++ packVec t.1 ++ packVec t.2.1 ++ packVec t.2.2
    ++ [0, 0]

/-- The header bytes the script writes:
`b'STL test file generated for GCodeKit5' + b' ' * 42`. -/
def headerBytes : List ℕ :=
  ("STL test file generated for GCodeKit5".data.map Char.toNat)
    ++ List.replicate 42 32

/-- The full byte stream write_stl_binary produces for a triangle list:
header, little-endian triangle count, then one record per triangle in
order. -/
def write_stl_binary (s : ℚ → ℚ) (triangles : List Triangle) : List ℕ :=
  headerBytes ++ u32le triangles.length ++ triangles.flatMap (triRecord s)

/-- Read a little-endian 32-bit value at a byte offset (missing bytes read
as 0). -/
def readU32 (bs : List ℕ) (off : ℕ) : ℕ :=
  bs.getD off 0 + 256 * bs.getD (off + 1) 0 + 65536 * bs.getD (off + 2) 0
    + 16777216 * bs.getD (off + 3) 0

/-- Split a byte stream into n 50-byte records. -/
def chunkRecords : ℕ → List ℕ → List (List ℕ)
  | 0, _ => []
  | n + 1, bs => bs.take 50 :: chunkRecords n (bs.drop 50)

/-- A binary STL parser following the layout of spec §6 (this definition
follows the spec's words, to be compared with the writer): an 80-byte
header, the triangle count at offset 80, then count 50-byte records and
nothing after them. -/
def parseSTL_spec (bs : List ℕ) : Option (ℕ × List (List ℕ)) :=
  let n := readU32 bs 80
  if bs.length = 84 + 50 * n then some (n, chunkRecords n (bs.drop 84))
  else none

/-- generate_cube_stl: 12 triangles (2 per face) over the 8 vertices of an
axis-aligned cube of edge `size` centered at the origin, with the vertex
indexing and triangulation of lines 53-78 of the script. -/
def generate_cube_stl (size : ℚ) : List Triangle :=
  let s := size / 2
  let v0 : Vec3 := ⟨-s, -s, -s⟩
  let v1 : Vec3 := ⟨s, -s, -s⟩
  let v2 : Vec3 := ⟨s, s, -s⟩
  let v3 : Vec3 := ⟨-s, s, -s⟩
  let v4 : Vec3 := ⟨-s, -s, s⟩
  let v5 : Vec3 := ⟨s, -s, s⟩
  let v6 : Vec3 := ⟨s, s, s⟩
  let v7 : Vec3 := ⟨-s, s, s⟩
  [(v0, v1, v2), (v0, v2, v3),
   (v4, v6, v5), (v4, v7, v6),
   (v0, v4, v5), (v0, v5, v1),
   (v2, v6, v7), (v2, v7, v3),
   (v0, v3, v7), (v0, v7, v4),
   (v1, v5, v6), (v1, v6, v2)]

/-- generate_pyramid_stl: 2 base triangles in the plane z = 0 and 4 side
triangles ending at the apex (0, 0, height), as on lines 84-100 of the
script. -/
def generate_pyramid_stl (base_size height : ℚ) : List Triangle :=
  let s := base_size / 2
  let h := height
  let b0 : Vec3 := ⟨-s, -s, 0⟩
  let b1 : Vec3 := ⟨s, -s, 0⟩
  let b2 : Vec3 := ⟨s, s, 0⟩
  let b3 : Vec3 := ⟨-s, s, 0⟩
  let apex : Vec3 := ⟨0, 0, h⟩
  [(b0, b2, b1), (b0, b3, b2),
   (b0, b1, apex), (b1, b2, apex), (b2, b3, apex), (b3, b0, apex)]

/-- The 8 corners of the axis-aligned cube of edge `size` centered at the
origin (statement vocabulary for the cube claim). -/
def cubeCorners (size : ℚ) : List Vec3 :=
  let s := size / 2
  [⟨-s, -s, -s⟩, ⟨s, -s, -s⟩, ⟨s, s, -s⟩, ⟨-s, s, -s⟩,
   ⟨-s, -s, s⟩, ⟨s, -s, s⟩, ⟨s, s, s⟩, ⟨-s, s, s⟩]

end StlGen

namespace StlGen

/-! ### Basic length and slicing lemmas -/

theorem headerBytes_length : headerBytes.length = 79 := by decide

theorem u32le_length (n : ℕ) : (u32le n).length = 4 := rfl

theorem f32le_length (q : ℚ) : (f32le q).length = 4 := rfl

theorem packVec_length (v : Vec3) : (packVec v).length = 12 := rfl

theorem triRecord_length (s : ℚ → ℚ) (t : Triangle) :
    (triRecord s t).length = 50 := rfl

theorem drop_app {α : Type} (l₁ l₂ : List α) (k : ℕ) :
    (l₁ ++ l₂).drop (l₁.length + k) = l₂.drop k := by
  induction l₁ with
  | nil => simp
  | cons a l ih =>
      have h : (a :: l).length + k = (l.length + k) + 1 := by
        rw [List.length_cons]; omega
      rw [h, List.cons_append, List.drop_succ_cons, ih]

theorem flatMap_record_length (s : ℚ → ℚ) (tris : List Triangle) :
    (tris.flatMap (triRecord s)).length = 50 * tris.length := by
  induction tris with
  | nil => simp
  | cons t ts ih =>
      rw [List.flatMap_cons, List.length_append, triRecord_length, ih,
        List.length_cons]
      ring

theorem flatMap_record_drop (s : ℚ → ℚ) (tris : List Triangle) (i : ℕ) :
    (tris.flatMap (triRecord s)).drop (50 * i)
      = (tris.drop i).flatMap (triRecord s) := by
  induction tris generalizing i with
  | nil => simp
  | cons t ts ih =>
      cases i with
      | zero => simp
      | succ j =>
          have h50 : 50 * (j + 1) = (triRecord s t).length + 50 * j := by
            rw [triRecord_length]; ring
          rw [List.flatMap_cons, h50, drop_app, ih, List.drop_succ_cons]

theorem write_length (s : ℚ → ℚ) (tris : List Triangle) :
    (write_stl_binary s tris).length = 83 + 50 * tris.length := by
  rw [write_stl_binary, List.length_append, List.length_append,
    headerBytes_length, u32le_length, flatMap_record_length]

theorem write_drop_record (s : ℚ → ℚ) (tris : List Triangle) (i : ℕ)
    (hi : i < tris.length) :
    (write_stl_binary s tris).drop (83 + 50 * i)
      = triRecord s (tris.get ⟨i, hi⟩)
          ++ (tris.drop (i + 1)).flatMap (triRecord s) := by
  have h1 : 83 + 50 * i = headerBytes.length + (4 + 50 * i) := by
    rw [headerBytes_length]; omega
  rw [write_stl_binary, List.append_assoc, h1, drop_app]
  have h2 : 4 + 50 * i = (u32le tris.length).length + 50 * i := by
    rw [u32le_length]
  rw [h2, drop_app, flatMap_record_drop]
  rw [List.drop_eq_getElem_cons hi, List.flatMap_cons]
  rfl

end StlGen

namespace StlGen

/-! ### Evaluation of the float encoder at 0 and 1 -/

theorem rne_intCast (n : ℤ) : rne (n : ℚ) = n := by
  unfold rne
  norm_num

theorem qlog2_one : qlog2 1 = 0 := by
  unfold qlog2
  norm_num [log2floorFuel]

theorem encF32_zero : encF32 0 = 0 := by
  unfold encF32
  norm_num

theorem encF32_one : encF32 1 = 1065353216 := by
  have h2 : rne ((8388608 : ℤ) : ℚ) = 8388608 := rne_intCast 8388608
  have h3 : (1 : ℚ) * (2 : ℚ) ^ ((23 : ℤ) - 0) = ((8388608 : ℤ) : ℚ) := by
    norm_num
  simp only [encF32, abs_one, qlog2_one, h3, h2]
  norm_num
  rfl

theorem f32le_zero : f32le 0 = [0, 0, 0, 0] := by
  rw [f32le, encF32_zero]
  rfl

theorem f32le_one : f32le 1 = [0, 0, 128, 63] := by
  rw [f32le, encF32_one]
  rfl

/-! ### Geometry helpers -/

theorem sumsq_nonneg (v : Vec3) : 0 ≤ sumsq v := by
  unfold sumsq
  nlinarith [mul_self_nonneg v.x, mul_self_nonneg v.y, mul_self_nonneg v.z]

theorem sumsq_eq_zero_iff (v : Vec3) :
    sumsq v = 0 ↔ v = ⟨0, 0, 0⟩ := by
  obtain ⟨x, y, z⟩ := v
  unfold sumsq
  constructor
  · intro h
    have hx : x = 0 := by nlinarith [mul_self_nonneg x, mul_self_nonneg y, mul_self_nonneg z]
    have hy : y = 0 := by nlinarith [mul_self_nonneg x, mul_self_nonneg y, mul_self_nonneg z]
    have hz : z = 0 := by nlinarith [mul_self_nonneg x, mul_self_nonneg y, mul_self_nonneg z]
    simp [hx, hy, hz]
  · intro h
    obtain ⟨rfl, rfl, rfl⟩ := Vec3.mk.injEq .. |>.mp h
    ring

end StlGen

namespace StlGen

theorem take_app {α : Type} (l₁ l₂ : List α) : (l₁ ++ l₂).take l₁.length = l₁ := by
  induction l₁ with
  | nil => simp
  | cons a l ih => simp [ih]

/-- C1: the claim states the output of write_stl_binary is 84 + 50×N bytes
(80-byte header) and that an empty mesh gives an 84-byte file. The header
literal is 37 characters plus 42 spaces = 79 bytes, so the empty mesh
yields an 83-byte file: the code contradicts its own "Header (80 bytes)"
comment. -/
theorem empty_mesh_file_is_83_bytes :
    (write_stl_binary (fun _ => 0) []).length = 83 := by
  rw [write_length]
  rfl

/-- C6: the claim states that parsing the generated file with the layout
of spec §6 (header, count at offset 80, count × 50-byte records) recovers
the mesh. Because the written header is 79 bytes, a parser using that
layout rejects the file written for the empty mesh (83 bytes instead of
84). -/
theorem spec_parse_rejects_empty_mesh_file :
    parseSTL_spec (write_stl_binary (fun _ => 0) []) = none := by
  decide

/-- C10: the division in the normalization step is guarded by
`length > 0`, so the checked variant (which reports any division by zero)
always succeeds and agrees with the unchecked computation, for every
triangle — including degenerate ones — and every modelled square root. -/
theorem normal_division_always_guarded (s : ℚ → ℚ) (t : Triangle) :
    normalOfChecked s t = some (normalOf s t) := by
  by_cases h : 0 < s (sumsq (cross t))
  · simp [normalOfChecked, normalOf, divOpt, h, ne_of_gt h]
  · simp [normalOfChecked, normalOf, h]

/-- C3: for a triangle whose edge cross product has zero (squared) length
— collinear or coincident vertices — the 12 normal bytes written in its
record are exactly the binary32 little-endian encoding of (0, 0, 1),
given that the modelled square root sends 0 to 0 (as `0 ** 0.5` does). -/
theorem degenerate_normal_is_unit_z (s : ℚ → ℚ) (tris : List Triangle)
    (i : ℕ) (hi : i < tris.length) (hs : s 0 = 0)
    (hdeg : sumsq (cross (tris.get ⟨i, hi⟩)) = 0) :
    ((write_stl_binary s tris).drop (83 + 50 * i)).take 12
      = [0, 0, 0, 0, 0, 0, 0, 0, 0, 0, 128, 63] := by
  rw [write_drop_record s tris i hi]
  have hn : normalOf s (tris.get ⟨i, hi⟩) = ⟨0, 0, 1⟩ := by
    simp only [normalOf, hdeg, hs]
    norm_num
  simp only [triRecord, hn, List.append_assoc]
  rw [show (12 : ℕ) = (packVec (⟨0, 0, 1⟩ : Vec3)).length from
    (packVec_length _).symm]
  rw [take_app]
  simp [packVec, f32le_zero, f32le_one]

/-- Witness for C3: a triangle with three coincident vertices, written with
the zero square-root model, gets the normal bytes of (0, 0, 1). -/
theorem degenerate_normal_is_unit_z_witness :
    ((fun _ => (0 : ℚ)) 0 = 0)
    ∧ 0 < ([((⟨0, 0, 0⟩ : Vec3), (⟨0, 0, 0⟩ : Vec3), (⟨0, 0, 0⟩ : Vec3))]
            : List Triangle).length
    ∧ ((write_stl_binary (fun _ => 0)
          [((⟨0, 0, 0⟩ : Vec3), (⟨0, 0, 0⟩ : Vec3), (⟨0, 0, 0⟩ : Vec3))]).drop
            (83 + 50 * 0)).take 12
        = [0, 0, 0, 0, 0, 0, 0, 0, 0, 0, 128, 63] :=
  ⟨rfl, by decide,
    degenerate_normal_is_unit_z (fun _ => 0)
      [((⟨0, 0, 0⟩ : Vec3), (⟨0, 0, 0⟩ : Vec3), (⟨0, 0, 0⟩ : Vec3))] 0
      (by decide) rfl (by norm_num [cross, sumsq])⟩

/-- C7: every written triangle record ends with the two attribute bytes
0x0000: the two bytes at offset 48 of the i-th 50-byte record (file offset
131 + 50·i in the actual layout) are [0, 0], for every mesh, every index
and every modelled square root. -/
theorem attribute_bytes_are_zero (s : ℚ → ℚ) (tris : List Triangle)
    (i : ℕ) (hi : i < tris.length) :
    ((write_stl_binary s tris).drop (131 + 50 * i)).take 2 = [0, 0] := by
  have h1 : 131 + 50 * i = (83 + 50 * i) + 48 := by omega
  rw [h1, ← List.drop_drop, write_drop_record s tris i hi]
  simp only [triRecord, List.append_assoc]
  rw [show (48 : ℕ)
      = (packVec (normalOf s (tris.get ⟨i, hi⟩))).length + 36 from by
    rw [packVec_length]]
  rw [drop_app]
  rw [show (36 : ℕ) = (packVec (tris.get ⟨i, hi⟩).1).length + 24 from by
    rw [packVec_length]]
  rw [drop_app]
  rw [show (24 : ℕ) = (packVec (tris.get ⟨i, hi⟩).2.1).length + 12 from by
    rw [packVec_length]]
  rw [drop_app]
  rw [show (12 : ℕ) = (packVec (tris.get ⟨i, hi⟩).2.2).length + 0 from by
    rw [packVec_length]]
  rw [drop_app]
  rfl

/-- Witness for C7: the single record of a concrete one-triangle mesh ends
with the attribute bytes [0, 0]. -/
theorem attribute_bytes_are_zero_witness :
    0 < ([((⟨0, 0, 0⟩ : Vec3), (⟨0, 0, 0⟩ : Vec3), (⟨0, 0, 0⟩ : Vec3))]
          : List Triangle).length
    ∧ ((write_stl_binary (fun _ => 0)
          [((⟨0, 0, 0⟩ : Vec3), (⟨0, 0, 0⟩ : Vec3), (⟨0, 0, 0⟩ : Vec3))]).drop
            (131 + 50 * 0)).take 2 = [0, 0] :=
  ⟨by decide,
    attribute_bytes_are_zero (fun _ => 0)
      [((⟨0, 0, 0⟩ : Vec3), (⟨0, 0, 0⟩ : Vec3), (⟨0, 0, 0⟩ : Vec3))] 0
      (by decide)⟩

end StlGen

namespace StlGen

/-- C5: the claim says the 4-byte little-endian triangle count sits at
offset 80. The written header is 79 bytes, so the count actually occupies
offsets 79–82; reading a little-endian 32-bit value at offset 80 of a
one-triangle file yields 0, not the triangle count 1. -/
theorem count_field_not_at_offset_80 :
    readU32 (write_stl_binary (fun _ => 0)
        [((⟨0, 0, 0⟩ : Vec3), (⟨0, 0, 0⟩ : Vec3), (⟨0, 0, 0⟩ : Vec3))]) 80 = 0
    ∧ ([((⟨0, 0, 0⟩ : Vec3), (⟨0, 0, 0⟩ : Vec3), (⟨0, 0, 0⟩ : Vec3))]
        : List Triangle).length = 1 := by
  constructor
  · have hn : normalOf (fun _ => (0 : ℚ))
        ((⟨0, 0, 0⟩ : Vec3), (⟨0, 0, 0⟩ : Vec3), (⟨0, 0, 0⟩ : Vec3))
        = ⟨0, 0, 1⟩ := by
      simp [normalOf]
    simp only [write_stl_binary, List.flatMap_cons, List.flatMap_nil,
      List.append_nil, triRecord, hn, packVec, f32le_zero, f32le_one,
      List.length_cons, List.length_nil]
    decide
  · rfl

/-- C4: for a triangle with non-collinear vertices (nonzero edge cross
product), given any consistent square-root model for the computed length,
the computed normal is the cross product divided componentwise by that
length, has squared magnitude exactly 1, and is a positive scalar multiple
of cross(v2−v1, v3−v1) (right-hand-rule orientation). -/
theorem noncollinear_normal_is_normalized_cross (s : ℚ → ℚ) (t : Triangle)
    (hc : cross t ≠ (⟨0, 0, 0⟩ : Vec3))
    (hsq : s (sumsq (cross t)) * s (sumsq (cross t)) = sumsq (cross t))
    (hnn : 0 ≤ s (sumsq (cross t))) :
    normalOf s t
      = ⟨(cross t).x / s (sumsq (cross t)), (cross t).y / s (sumsq (cross t)),
         (cross t).z / s (sumsq (cross t))⟩
    ∧ sumsq (normalOf s t) = 1
    ∧ ∃ c : ℚ, 0 < c
        ∧ normalOf s t
          = ⟨c * (cross t).x, c * (cross t).y, c * (cross t).z⟩ := by
  have hq0 : sumsq (cross t) ≠ 0 := by
    intro hz
    exact hc ((sumsq_eq_zero_iff _).mp hz)
  have hL0 : s (sumsq (cross t)) ≠ 0 := by
    intro hz
    apply hq0
    rw [← hsq, hz, mul_zero]
  have hLpos : 0 < s (sumsq (cross t)) := lt_of_le_of_ne hnn (Ne.symm hL0)
  have hnf : normalOf s t
      = ⟨(cross t).x / s (sumsq (cross t)), (cross t).y / s (sumsq (cross t)),
         (cross t).z / s (sumsq (cross t))⟩ := by
    simp only [normalOf]
    rw [if_pos hLpos]
  refine ⟨hnf, ?_, ⟨(s (sumsq (cross t)))⁻¹, inv_pos.mpr hLpos, ?_⟩⟩
  · rw [hnf]
    simp only [sumsq] at hsq hL0 ⊢
    field_simp [hL0]
    linear_combination -hsq
  · rw [hnf]
    simp only [Vec3.mk.injEq]
    refine ⟨?_, ?_, ?_⟩ <;> rw [div_eq_mul_inv, mul_comm]

/-- Witness for C4: the triangle (0,0,0), (1,0,0), (0,1,0) has cross
product (0, 0, 1); with the exact square root 1 of its squared length, the
computed normal has squared magnitude 1. -/
theorem noncollinear_normal_is_normalized_cross_witness :
    cross ((⟨0, 0, 0⟩ : Vec3), (⟨1, 0, 0⟩ : Vec3), (⟨0, 1, 0⟩ : Vec3))
        ≠ (⟨0, 0, 0⟩ : Vec3)
    ∧ (fun _ => (1 : ℚ))
          (sumsq (cross ((⟨0, 0, 0⟩ : Vec3), (⟨1, 0, 0⟩ : Vec3),
            (⟨0, 1, 0⟩ : Vec3))))
        * (fun _ => (1 : ℚ))
          (sumsq (cross ((⟨0, 0, 0⟩ : Vec3), (⟨1, 0, 0⟩ : Vec3),
            (⟨0, 1, 0⟩ : Vec3))))
        = sumsq (cross ((⟨0, 0, 0⟩ : Vec3), (⟨1, 0, 0⟩ : Vec3),
            (⟨0, 1, 0⟩ : Vec3)))
    ∧ 0 ≤ (fun _ => (1 : ℚ))
          (sumsq (cross ((⟨0, 0, 0⟩ : Vec3), (⟨1, 0, 0⟩ : Vec3),
            (⟨0, 1, 0⟩ : Vec3))))
    ∧ sumsq (normalOf (fun _ => 1)
        ((⟨0, 0, 0⟩ : Vec3), (⟨1, 0, 0⟩ : Vec3), (⟨0, 1, 0⟩ : Vec3))) = 1 :=
  ⟨by norm_num [cross, Vec3.mk.injEq], by norm_num [cross, sumsq],
    by norm_num,
    (noncollinear_normal_is_normalized_cross (fun _ => 1)
      ((⟨0, 0, 0⟩ : Vec3), (⟨1, 0, 0⟩ : Vec3), (⟨0, 1, 0⟩ : Vec3))
      (by norm_num [cross, Vec3.mk.injEq]) (by norm_num [cross, sumsq])
      (by norm_num)).2.1⟩

end StlGen

namespace StlGen

/-- C8: for every positive edge length, generate_cube_stl returns exactly
12 triangles, every coordinate of every vertex is −size/2 or +size/2, and
each of the 8 corners of the axis-aligned cube of edge `size` centered at
the origin occurs among the triangles' vertices. -/
theorem cube_mesh_geometry (size : ℚ) (hpos : 0 < size) :
    (generate_cube_stl size).length = 12
    ∧ (∀ t ∈ generate_cube_stl size, ∀ v ∈ vertsOf t,
        (v.x = -(size / 2) ∨ v.x = size / 2)
        ∧ (v.y = -(size / 2) ∨ v.y = size / 2)
        ∧ (v.z = -(size / 2) ∨ v.z = size / 2))
    ∧ (∀ c ∈ cubeCorners size, ∃ t ∈ generate_cube_stl size,
        c ∈ vertsOf t) := by
  refine ⟨rfl, ?_, ?_⟩
  · intro t ht
    simp only [generate_cube_stl, List.mem_cons, List.not_mem_nil,
      or_false] at ht
    rcases ht with rfl | rfl | rfl | rfl | rfl | rfl | rfl | rfl | rfl | rfl | rfl | rfl <;>
      · intro v hv
        simp only [vertsOf, List.mem_cons, List.not_mem_nil, or_false] at hv
        rcases hv with rfl | rfl | rfl <;> simp
  · intro c hc
    simp only [cubeCorners, List.mem_cons, List.not_mem_nil, or_false] at hc
    rcases hc with rfl | rfl | rfl | rfl | rfl | rfl | rfl | rfl <;>
      exact List.mem_flatMap.mp (by simp [generate_cube_stl, vertsOf])

/-- Witness for C8: the cube of edge 10 has 12 triangles. -/
theorem cube_mesh_geometry_witness :
    (0 : ℚ) < 10 ∧ (generate_cube_stl 10).length = 12 :=
  ⟨by norm_num, (cube_mesh_geometry 10 (by norm_num)).1⟩

end StlGen

namespace StlGen

/-- C9: for positive base side b and height h, generate_pyramid_stl
returns exactly 6 triangles: the first 2 lie in the plane z = 0 with x and
y coordinates ±b/2 and cover all 4 corners of the base square, the last 4
each contain the apex (0, 0, h); and concretely for base 8 and height 6
the apex (0, 0, 6) appears in exactly 4 of the 6 triangles' vertex lists. -/
theorem pyramid_mesh_geometry (b h : ℚ) (hb : 0 < b) (hh : 0 < h) :
    (generate_pyramid_stl b h).length = 6
    ∧ (∀ t ∈ (generate_pyramid_stl b h).take 2, ∀ v ∈ vertsOf t,
        v.z = 0 ∧ (v.x = -(b / 2) ∨ v.x = b / 2)
        ∧ (v.y = -(b / 2) ∨ v.y = b / 2))
    ∧ (∀ c ∈ ([⟨-(b / 2), -(b / 2), 0⟩, ⟨b / 2, -(b / 2), 0⟩,
          ⟨b / 2, b / 2, 0⟩, ⟨-(b / 2), b / 2, 0⟩] : List Vec3),
        ∃ t ∈ (generate_pyramid_stl b h).take 2, c ∈ vertsOf t)
    ∧ (∀ t ∈ (generate_pyramid_stl b h).drop 2,
        (⟨0, 0, h⟩ : Vec3) ∈ vertsOf t)
    ∧ (generate_pyramid_stl 8 6).countP
        (fun t => decide ((⟨0, 0, 6⟩ : Vec3) ∈ vertsOf t)) = 4 := by
  refine ⟨rfl, ?_, ?_, ?_, ?_⟩
  · intro t ht
    simp only [generate_pyramid_stl, List.take_succ_cons, List.take_zero,
      List.mem_cons, List.not_mem_nil, or_false] at ht
    rcases ht with rfl | rfl <;>
      · intro v hv
        simp only [vertsOf, List.mem_cons, List.not_mem_nil, or_false] at hv
        rcases hv with rfl | rfl | rfl <;> simp
  · intro c hc
    simp only [List.mem_cons, List.not_mem_nil, or_false] at hc
    rcases hc with rfl | rfl | rfl | rfl <;>
      exact List.mem_flatMap.mp (by simp [generate_pyramid_stl, vertsOf])
  · intro t ht
    simp only [generate_pyramid_stl, List.drop_succ_cons, List.drop_zero,
      List.mem_cons, List.not_mem_nil, or_false] at ht
    rcases ht with rfl | rfl | rfl | rfl <;> simp [vertsOf]
  · norm_num [generate_pyramid_stl, vertsOf, List.countP_cons,
      List.countP_nil, Vec3.mk.injEq]

/-- Witness for C9: base 8, height 6 — the apex (0, 0, 6) appears in
exactly 4 of the 6 triangles. -/
theorem pyramid_mesh_geometry_witness :
    (0 : ℚ) < 8 ∧ (0 : ℚ) < 6
    ∧ (generate_pyramid_stl 8 6).countP
        (fun t => decide ((⟨0, 0, 6⟩ : Vec3) ∈ vertsOf t)) = 4 :=
  ⟨by norm_num, by norm_num,
    (pyramid_mesh_geometry 8 6 (by norm_num) (by norm_num)).2.2.2.2⟩

end StlGen
